import Mathlib

/-!
Verification of the image-conversion pipeline of `dataset_utils`
(`dataset_utils/image_utils/_image_processor.py` and
`dataset_utils/image_utils/_convert_image.py`).

The Python code is shallowly embedded:
* image dimensions are `ℤ` (Python ints are unbounded);
* Python float arithmetic on ratios is modelled by exact `ℚ` arithmetic
  (all concrete inputs used in counterexamples are chosen so that the
  binary-float computation agrees with the rational one);
* `int(x)` (truncation toward zero) is `pyInt`;
* Python `//` (floor division) is `Int.fdiv`;
* the filesystem and the image codec are an explicit environment `Env`:
  each path maps to an optional file record carrying its mtime/atime and,
  when the file is a readable image, its decoded dimensions;
* observable side effects (decode, encode, makedirs, utime) are collected
  in an event list; fallible code returns `Except`, and Python
  `try/except` wrappers turn the error case into the value the code
  returns on failure.
-/

/-- Python `int(x)`: truncation toward zero (floor for nonnegative values,
ceiling for negative ones). -/
def pyInt (q : ℚ) : ℤ :=
  if 0 ≤ q then ⌊q⌋ else ⌈q⌉

/-- `ResizeMode` from `_image_processor.py`: the three resize policies. -/
inductive ResizeMode where
  | proportional
  | crop
  | padding
deriving DecidableEq, Repr

/-- The geometric plan computed by `resize_image`:
`newSize` is the size passed to `image.resize`, `outSize` the size of the
returned image, and `offset` the crop offsets (CROP) or paste offsets
(PADDING); `(0, 0)` for PROPORTIONAL. -/
structure ResizePlan where
  newSize : ℤ × ℤ
  outSize : ℤ × ℤ
  offset : ℤ × ℤ
deriving DecidableEq, Repr

/-- `resize_image` from `_image_processor.py` (lines 194–254), restricted to
its geometry.  `scale` is the Python `ratio`; `int(...)` is `pyInt`; the
Python `//` offsets are `Int.fdiv`.  For CROP the code calls
`resized.crop((left, top, left + tw, top + th))`, and PIL `crop` returns an
image of exactly `(right - left, bottom - top)` pixels; for PADDING the code
pastes into `Image.new(mode, (tw, th))`, so the output is exactly the new
canvas size. -/
def resize_image (w h tw th : ℤ) (mode : ResizeMode) : ResizePlan :=
  match mode with
  | ResizeMode.proportional =>
      let scale : ℚ := min ((tw : ℚ) / (w : ℚ)) ((th : ℚ) / (h : ℚ))
      let nw := pyInt ((w : ℚ) * scale)
      let nh := pyInt ((h : ℚ) * scale)
      { newSize := (nw, nh), outSize := (nw, nh), offset := (0, 0) }
  | ResizeMode.crop =>
      let scale : ℚ := max ((tw : ℚ) / (w : ℚ)) ((th : ℚ) / (h : ℚ))
      let nw := pyInt ((w : ℚ) * scale)
      let nh := pyInt ((h : ℚ) * scale)
      let left := (nw - tw).fdiv 2
      let top := (nh - th).fdiv 2
      let right := left + tw
      let bottom := top + th
      { newSize := (nw, nh), outSize := (right - left, bottom - top),
        offset := (left, top) }
  | ResizeMode.padding =>
      let scale : ℚ := min ((tw : ℚ) / (w : ℚ)) ((th : ℚ) / (h : ℚ))
      let nw := pyInt ((w : ℚ) * scale)
      let nh := pyInt ((h : ℚ) * scale)
      { newSize := (nw, nh), outSize := (tw, th),
        offset := ((tw - nw).fdiv 2, (th - nh).fdiv 2) }

/-- `resize_by_short_edge` from `_convert_image.py` (lines 165–203):
skip when `only_shrink` is set and the short edge is already `≤ size`,
otherwise compute the target pair with `int(...)` truncation and delegate
to `resize_image` in PROPORTIONAL mode.  Only the resulting size is
modelled. -/
def resize_by_short_edge (w h : ℤ) (size : ℤ) (only_shrink : Bool) : ℤ × ℤ :=
  let short_edge := min w h
  if only_shrink = true ∧ short_edge ≤ size then (w, h)
  else
    let target : ℤ × ℤ :=
      if w ≤ h then (size, pyInt ((h : ℚ) * (size : ℚ) / (w : ℚ)))
      else (pyInt ((w : ℚ) * (size : ℚ) / (h : ℚ)), size)
    (resize_image w h target.1 target.2 ResizeMode.proportional).outSize

/-- Absolute difference between an aspect ratio and a bucket's aspect
ratio, as computed inside the loop of `find_closest_bucket`. -/
def bucket_ratio_diff (aspect : ℚ) (bucket : ℤ × ℤ) : ℚ :=
  |aspect - (bucket.1 : ℚ) / (bucket.2 : ℚ)|

/-- The loop of `find_closest_bucket` (lines 184–190 of
`_image_processor.py`).  The Python loop starts from
`closest_bucket = None, min_diff = inf`, so the first bucket always becomes
the current best; the accumulator `closest` is that current best and the
stored `min_diff` always equals `bucket_ratio_diff aspect closest`, so it is
recomputed instead of carried. -/
def find_closest_bucket_go (aspect : ℚ) (closest : ℤ × ℤ) :
    List (ℤ × ℤ) → ℤ × ℤ
  | [] => closest
  | b :: rest =>
      if bucket_ratio_diff aspect b < bucket_ratio_diff aspect closest then
        find_closest_bucket_go aspect b rest
      else
        find_closest_bucket_go aspect closest rest

/-- `find_closest_bucket` from `_image_processor.py` (lines 162–192):
raises `ValueError` on an empty bucket list, otherwise scans the list
keeping the first bucket whose aspect-ratio difference is strictly below
the current minimum. -/
def find_closest_bucket (width height : ℤ) (buckets : List (ℤ × ℤ)) :
    Except String (ℤ × ℤ) :=
  match buckets with
  | [] => Except.error ("bucket list must not be empty")
  | b :: rest =>
      Except.ok (find_closest_bucket_go ((width : ℚ) / (height : ℚ)) b rest)

/-- The quality clamp of `save_image` (`_image_processor.py` line 88):
`quality = max(1, min(100, quality))`. -/
def save_image_quality (quality : ℤ) : ℤ :=
  max 1 (min 100 quality)

/-- The quality clamp of `batch_convert_to_webp`
(`_convert_image.py` line 494): `quality = max(1, min(100, quality))`. -/
def batch_convert_to_webp_quality (quality : ℤ) : ℤ :=
  max 1 (min 100 quality)

/-- The method clamp of `batch_convert_to_webp`
(`_convert_image.py` line 497): `method = max(0, min(6, method))`. -/
def batch_convert_to_webp_method (method : ℤ) : ℤ :=
  max 0 (min 6 method)

/-- A file on disk: its modification and access times and, when the file
is an image the codec can decode, the decoded pixel dimensions
(`none` models a missing/corrupt/undecodable image).  Python exposes
timestamps as floats; only their ordering and copying matter to the code,
so they are modelled as exact integers. -/
structure FileST where
  mtime : ℤ
  atime : ℤ
  image : Option (ℤ × ℤ)
deriving DecidableEq, Repr

/-- The environment a conversion runs in: the filesystem (`files`),
which paths can successfully be written (`writeOk`, modelling encoder and
I/O errors on write), and the timestamp a fresh write receives (`now`). -/
structure Env where
  files : ℕ → Option FileST
  writeOk : ℕ → Bool
  now : ℤ

/-- Observable side effects of the pipeline, in program order:
`decode p` = the image at `p` was read and decoded (`read_image`);
`encode q m` = an image was handed to the encoder with quality `q` and,
for the WebP path, method `m` (`none` when saving goes through
`save_image`, which passes no method); `mkdir p` = the parent directory of
`p` was created with `os.makedirs(..., exist_ok=True)`; `utime a m` = the
output file's access/modification times were set to `(a, m)`. -/
inductive FxEvent where
  | decode (path : ℕ)
  | encode (quality : ℤ) (method : Option ℤ)
  | mkdir (path : ℕ)
  | utime (atime mtime : ℤ)
deriving DecidableEq, Repr

/-- The encode path of `convert_to_webp` (`_convert_image.py` lines
239–288): `read_image`, the optional short-edge resize,
`os.makedirs`, `image.save(..., 'WEBP', quality=..., method=...)`
(no clamping of either parameter), and the final `os.utime` that copies
the source file's access/modification times onto the output.  Paths are
abstract names (`ℕ`); `mkdir output_path` stands for creating the output
path's parent directory.  Color-mode conversion changes no geometry and
is not modelled. -/
def convert_to_webp_encode (env : Env) (image_path output_path : ℕ)
    (size : Option ℤ) (quality : ℤ) (only_shrink : Bool) (method : ℤ) :
    Except String ℕ × Env × List FxEvent :=
  match env.files image_path with
  | none => (Except.error ("read_image: file does not exist"), env, [])
  | some f =>
      match f.image with
      | none => (Except.error ("read_image: cannot decode"), env, [])
      | some wh =>
          let dims : ℤ × ℤ :=
            match size with
            | some s => resize_by_short_edge wh.1 wh.2 s only_shrink
            | none => wh
          if env.writeOk output_path then
            let files1 : ℕ → Option FileST := fun p =>
              if p = output_path then
                some { mtime := f.mtime, atime := f.atime, image := some dims }
              else env.files p
            (Except.ok output_path, { env with files := files1 },
              [FxEvent.decode image_path, FxEvent.mkdir output_path,
               FxEvent.encode quality (some method),
               FxEvent.utime f.atime f.mtime])
          else
            (Except.error ("save failed"), env,
              [FxEvent.decode image_path, FxEvent.mkdir output_path])

/-- The mtime-based skip check in front of `convert_to_webp_encode`:
`os.path.exists(output) and os.path.getmtime(output) > os.path.getmtime(input)`.
When the output does not exist the conjunction short-circuits and the body
runs; when it exists but the input does not, `os.path.getmtime(image_path)`
raises (caught by the function's `try/except`). -/
def convert_to_webp_run (env : Env) (image_path output_path : ℕ)
    (size : Option ℤ) (quality : ℤ) (only_shrink : Bool) (method : ℤ) :
    Except String ℕ × Env × List FxEvent :=
  match env.files output_path with
  | none => convert_to_webp_encode env image_path output_path size quality only_shrink method
  | some outF =>
      match env.files image_path with
      | none => (Except.error ("getmtime: input does not exist"), env, [])
      | some inF =>
          if inF.mtime < outF.mtime then (Except.ok output_path, env, [])
          else convert_to_webp_encode env image_path output_path size quality only_shrink method

/-- `convert_to_webp`: the whole body runs under `try/except Exception`,
returning the output path on success and `None` on any failure. -/
def convert_to_webp (env : Env) (image_path output_path : ℕ)
    (size : Option ℤ) (quality : ℤ) (only_shrink : Bool) (method : ℤ) :
    Option ℕ × Env × List FxEvent :=
  match convert_to_webp_run env image_path output_path size quality only_shrink method with
  | (Except.ok p, e, evs) => (some p, e, evs)
  | (Except.error _, e, evs) => (none, e, evs)

/-- The per-item call of `batch_convert_to_webp`
(`_convert_image.py` lines 493–497 and 565–575): the batch function clamps
`quality` to 1–100 and `method` to 0–6 once, then passes the clamped
values to `convert_to_webp` for every (file, size) task. -/
def batch_convert_to_webp_item (env : Env) (image_path output_path : ℕ)
    (size : ℤ) (quality : ℤ) (only_shrink : Bool) (method : ℤ) :
    Option ℕ × Env × List FxEvent :=
  convert_to_webp env image_path output_path (some size)
    (batch_convert_to_webp_quality quality) only_shrink
    (batch_convert_to_webp_method method)

/-- The result dictionary of `convert` (`_convert_image.py` lines 147–163),
restricted to the fields the verified claims use. -/
structure ConvResult where
  success : Bool
  input_path : ℕ
  original_size : Option (ℤ × ℤ)
  final_size : Option (ℤ × ℤ)
deriving DecidableEq, Repr

/-- The body of `convert` (`_convert_image.py` lines 64–156) as `Except`.
`read_image`; then the bucket step guarded by Python truthiness
(`if buckets and (resize is None or resize_mode != PROPORTIONAL)`, so an
empty bucket list is skipped exactly like `buckets=None`); then the
conditional resize; then `save_image`, which clamps quality with
`save_image_quality` before encoding.  The output-path/format string
handling and color-mode conversion change no geometry and are not
modelled; whether the final write succeeds is `env.writeOk image_path`,
keyed by the input (the derived output path is a string computation).  On
success the event list records the decode and the encode with the clamped
quality (and no WebP method, since `save_image` passes none). -/
def convert_run (env : Env) (image_path : ℕ) (resize : Option (ℤ × ℤ))
    (resize_mode : ResizeMode) (buckets : Option (List (ℤ × ℤ)))
    (quality : ℤ) : Except String (ConvResult × List FxEvent) :=
  match env.files image_path with
  | none => Except.error ("read_image: file does not exist")
  | some f =>
  match f.image with
  | none => Except.error ("read_image: cannot decode")
  | some wh =>
  -- `if buckets and (resize is None or resize_mode != ResizeMode.PROPORTIONAL)`
  let afterBucket : Except String (ℤ × ℤ × Option (ℤ × ℤ)) :=
    match buckets, resize with
    | some (b :: bs), none =>
        (find_closest_bucket wh.1 wh.2 (b :: bs)).map fun bk =>
          (wh.1, wh.2, some bk)
    | some (b :: bs), some rs =>
        if resize_mode ≠ ResizeMode.proportional then
          (find_closest_bucket wh.1 wh.2 (b :: bs)).map fun bk =>
            let sz := (resize_image wh.1 wh.2 bk.1 bk.2 resize_mode).outSize
            (sz.1, sz.2, some rs)
        else Except.ok (wh.1, wh.2, some rs)
    | _, _ => Except.ok (wh.1, wh.2, resize)
  match afterBucket with
  | Except.error e => Except.error e
  | Except.ok (w1, h1, target) =>
  -- `if target_size and (width != target_size[0] or height != target_size[1])`
  let finalSize : ℤ × ℤ :=
    match target with
    | some t =>
        if w1 ≠ t.1 ∨ h1 ≠ t.2 then
          (resize_image w1 h1 t.1 t.2 resize_mode).outSize
        else (w1, h1)
    | none => (w1, h1)
  if env.writeOk image_path then
    Except.ok
      ({ success := true, input_path := image_path,
         original_size := some wh, final_size := some finalSize },
       [FxEvent.decode image_path,
        FxEvent.encode (save_image_quality quality) none])
  else Except.error ("save failed")

/-- `convert`: the whole body runs under `try/except Exception`; any
failure is caught and turned into a `success=False` result for this one
input. -/
def convert (env : Env) (image_path : ℕ) (resize : Option (ℤ × ℤ))
    (resize_mode : ResizeMode) (buckets : Option (List (ℤ × ℤ)))
    (quality : ℤ) : ConvResult × List FxEvent :=
  match convert_run env image_path resize resize_mode buckets quality with
  | Except.ok r => r
  | Except.error _ =>
      ({ success := false, input_path := image_path,
         original_size := none, final_size := none }, [])

/-- `batch_convert` (`_convert_image.py` lines 294–444): an empty input
list returns `[]` immediately, before the output directory is created and
before the thread pool is started; otherwise the output directory is
created once and every path is converted independently with the shared
options, one result per input.  The thread pool is an embarrassingly
parallel map whose per-item results do not interact; the completion order
of the Python result list is nondeterministic, and this embedding fixes
submission order (every completion order is a permutation of it, and the
verified claims are order-insensitive counts). -/
def batch_convert (env : Env) (image_paths : List ℕ) (output_dir : Option ℕ)
    (resize : Option (ℤ × ℤ)) (resize_mode : ResizeMode)
    (buckets : Option (List (ℤ × ℤ))) (quality : ℤ) :
    List ConvResult × List FxEvent :=
  match image_paths with
  | [] => ([], [])
  | p0 :: rest =>
      let dirEvents : List FxEvent :=
        match output_dir with
        | some d => [FxEvent.mkdir d]
        | none => []
      let runs := (p0 :: rest).map fun p =>
        convert env p resize resize_mode buckets quality
      (runs.map Prod.fst, dirEvents ++ (runs.map Prod.snd).flatten)

/-- Evaluate `⌊q⌋` from explicit bounds. -/
lemma floor_eval {q : ℚ} {n : ℤ} (h₁ : (n : ℚ) ≤ q) (h₂ : q < n + 1) :
    ⌊q⌋ = n :=
  Int.floor_eq_iff.mpr ⟨h₁, h₂⟩

/-- Evaluate `pyInt q` for nonnegative `q` from explicit floor bounds. -/
lemma pyInt_eval {q : ℚ} {n : ℤ} (h₀ : 0 ≤ q) (h₁ : (n : ℚ) ≤ q)
    (h₂ : q < n + 1) : pyInt q = n := by
  rw [pyInt, if_pos h₀]
  exact floor_eval h₁ h₂

/-- On nonnegative arguments `pyInt` is the floor. -/
lemma pyInt_of_nonneg {q : ℚ} (h : 0 ≤ q) : pyInt q = ⌊q⌋ :=
  if_pos h

/-- Python `// 2` agrees with the rational floor of the halved value. -/
lemma fdiv_two_eq_floor (a : ℤ) : a.fdiv 2 = ⌊(a : ℚ) / 2⌋ := by
  rw [Int.fdiv_eq_ediv a (by norm_num)]
  have h : ((a : ℚ) / 2) = ((a : ℤ) : ℚ) / ((2 : ℕ) : ℚ) := by norm_num
  rw [h, Rat.floor_intCast_div_natCast]
  norm_num

/-- In every list of conversion results, the successes and the failures
partition the list. -/
lemma countP_success_add_countP_failure (l : List ConvResult) :
    l.countP (fun x => x.success) + l.countP (fun x => !x.success) = l.length := by
  induction l with
  | nil => rfl
  | cons a t ih =>
      cases h : a.success <;> simp [List.countP_cons, h] <;> omega

/-- A concrete filesystem for the incremental-skip scenario: path 0 is a
decodable 10×10 image with mtime 100 and atime 50; path 1 (the output)
does not exist yet; every write succeeds. -/
def envC1 : Env :=
  { files := fun p =>
      if p = 0 then some { mtime := 100, atime := 50, image := some (10, 10) }
      else none,
    writeOk := fun _ => true, now := 999 }

/-- As `envC1`, but the output path 1 already exists with mtime 150,
strictly newer than the input's 100. -/
def envC1b : Env :=
  { files := fun p =>
      if p = 0 then some { mtime := 100, atime := 50, image := some (10, 10) }
      else if p = 1 then some { mtime := 150, atime := 70, image := some (10, 10) }
      else none,
    writeOk := fun _ => true, now := 999 }

/-- C1: the first half of the claim holds — when the output already exists
with an mtime strictly newer than the input's, `convert_to_webp` returns
the existing output path with no decode and no encode (last two
conjuncts, on `envC1b`).  But the claimed consequence fails: calling
`convert_to_webp` twice on an unchanged source encodes TWICE.  The first
call encodes and then `os.utime` copies the input's mtime (100) onto the
output, so the second call's staleness check `mtime(out) > mtime(in)` is
`100 > 100 = False` and the file is decoded and re-encoded; only the
strictness of `>` against the deliberately equalized mtimes makes the
skip dead for the function's own outputs.  (The output mtime is 100 after
either call, so the spec's proposed mtime-based observation cannot see
the second encode.) -/
theorem convert_to_webp_second_call_reencodes :
    (convert_to_webp envC1 0 1 none 85 true 6).1 = some 1 ∧
    FxEvent.encode 85 (some 6) ∈ (convert_to_webp envC1 0 1 none 85 true 6).2.2 ∧
    Option.map FileST.mtime
      ((convert_to_webp envC1 0 1 none 85 true 6).2.1.files 1) = some 100 ∧
    (convert_to_webp (convert_to_webp envC1 0 1 none 85 true 6).2.1
        0 1 none 85 true 6).1 = some 1 ∧
    FxEvent.encode 85 (some 6) ∈
      (convert_to_webp (convert_to_webp envC1 0 1 none 85 true 6).2.1
        0 1 none 85 true 6).2.2 ∧
    Option.map FileST.mtime
      ((convert_to_webp (convert_to_webp envC1 0 1 none 85 true 6).2.1
        0 1 none 85 true 6).2.1.files 1) = some 100 ∧
    (convert_to_webp envC1b 0 1 none 85 true 6).1 = some 1 ∧
    (convert_to_webp envC1b 0 1 none 85 true 6).2.2 = [] := by
  decide

/-- C10: `batch_convert` on an empty path list returns an empty result
list with no side effects at all — in particular the output directory is
not created and no conversion is scheduled. -/
theorem batch_convert_empty_input (env : Env) (dir : Option ℕ)
    (r : Option (ℤ × ℤ)) (mo : ResizeMode) (bks : Option (List (ℤ × ℤ)))
    (q : ℤ) : batch_convert env [] dir r mo bks q = ([], []) := rfl

/-- The encode path of `convert_to_webp` either succeeds with the output
path or fails with some error. -/
lemma convert_to_webp_encode_ret (env : Env) (ip op : ℕ) (size : Option ℤ)
    (q : ℤ) (osh : Bool) (m : ℤ) :
    (convert_to_webp_encode env ip op size q osh m).1 = Except.ok op ∨
    ∃ e, (convert_to_webp_encode env ip op size q osh m).1 = Except.error e := by
  unfold convert_to_webp_encode
  repeat' split
  all_goals simp

/-- `convert_to_webp_run` either succeeds with the output path or fails
with some error. -/
lemma convert_to_webp_run_ret (env : Env) (ip op : ℕ) (size : Option ℤ)
    (q : ℤ) (osh : Bool) (m : ℤ) :
    (convert_to_webp_run env ip op size q osh m).1 = Except.ok op ∨
    ∃ e, (convert_to_webp_run env ip op size q osh m).1 = Except.error e := by
  unfold convert_to_webp_run
  repeat' split
  all_goals first
    | simp
    | exact convert_to_webp_encode_ret env ip op size q osh m

/-- C9: `convert_to_webp` never propagates a failure to its caller: for
every environment and every argument combination it returns either the
output path (on success, including the mtime-skip) or `None` (on any
failure: missing input, undecodable image, failing write), the
`try/except Exception` wrapper around its whole body converting every
raised error into `None`. -/
theorem convert_to_webp_returns_path_or_none (env : Env) (ip op : ℕ)
    (size : Option ℤ) (q : ℤ) (osh : Bool) (m : ℤ) :
    (convert_to_webp env ip op size q osh m).1 = some op ∨
    (convert_to_webp env ip op size q osh m).1 = none := by
  unfold convert_to_webp
  rcases hr : convert_to_webp_run env ip op size q osh m with ⟨r1, renv, revs⟩
  have h := convert_to_webp_run_ret env ip op size q osh m
  rw [hr] at h
  rcases h with h | ⟨e, h⟩ <;> simp at h <;> subst h <;> simp

/-- Every encode event emitted by `convert_to_webp_run` carries exactly
the caller-supplied quality and method — no clamping happens anywhere on
this path. -/
lemma convert_to_webp_run_encode_event (env : Env) (ip op : ℕ)
    (size : Option ℤ) (q : ℤ) (osh : Bool) (m : ℤ) (qq : ℤ) (mm : Option ℤ) :
    FxEvent.encode qq mm ∈ (convert_to_webp_run env ip op size q osh m).2.2 →
    qq = q ∧ mm = some m := by
  unfold convert_to_webp_run convert_to_webp_encode
  repeat' split
  all_goals intro hmem
  all_goals simp_all

/-- Every encode event emitted by `convert_to_webp` carries exactly the
caller-supplied quality and method. -/
lemma convert_to_webp_encode_event (env : Env) (ip op : ℕ) (size : Option ℤ)
    (q : ℤ) (osh : Bool) (m : ℤ) (qq : ℤ) (mm : Option ℤ) :
    FxEvent.encode qq mm ∈ (convert_to_webp env ip op size q osh m).2.2 →
    qq = q ∧ mm = some m := by
  unfold convert_to_webp
  rcases hr : convert_to_webp_run env ip op size q osh m with ⟨r1, renv, revs⟩
  have h := convert_to_webp_run_encode_event env ip op size q osh m qq mm
  rw [hr] at h
  rcases r1 with e | p <;> simpa using h

/-- C5 counterexample: `convert_to_webp` called directly with
`quality=150, method=9` hands exactly 150 and 9 to the encoder — both
outside their valid ranges (1–100 and 0–6), so the values passed to the
encoder are NOT clamped on this call path. -/
theorem convert_to_webp_passes_unclamped_values :
    FxEvent.encode 150 (some 9) ∈ (convert_to_webp envC1 0 1 none 150 true 9).2.2 ∧
    ¬((150 : ℤ) ≤ 100) ∧ ¬((9 : ℤ) ≤ 6) := by
  decide

/-- C5 (amended): `convert` clamps quality into 1–100 (inside
`save_image`); `batch_convert_to_webp` clamps quality into 1–100 and
method into 0–6 before delegating, so every encode event on the batch
path is in range; but `convert_to_webp` itself performs no clamping and
passes the caller-supplied quality and method through to the encoder
unchanged. -/
theorem quality_method_clamping (env : Env) (ip op : ℕ) (size : Option ℤ)
    (osh : Bool) (q m qq₁ qq₂ : ℤ) (mm₁ mm₂ : Option ℤ) (sz : ℤ) :
    (1 ≤ save_image_quality q ∧ save_image_quality q ≤ 100) ∧
    (FxEvent.encode qq₁ mm₁ ∈ (convert_to_webp env ip op size q osh m).2.2 →
      qq₁ = q ∧ mm₁ = some m) ∧
    (FxEvent.encode qq₂ mm₂ ∈ (batch_convert_to_webp_item env ip op sz q osh m).2.2 →
      (1 ≤ qq₂ ∧ qq₂ ≤ 100) ∧ ∃ m₀, mm₂ = some m₀ ∧ 0 ≤ m₀ ∧ m₀ ≤ 6) := by
  refine ⟨?_, convert_to_webp_encode_event env ip op size q osh m qq₁ mm₁, ?_⟩
  · unfold save_image_quality
    omega
  · intro hmem
    have h := convert_to_webp_encode_event env ip op (some sz)
      (batch_convert_to_webp_quality q) osh (batch_convert_to_webp_method m) qq₂ mm₂
      hmem
    rcases h with ⟨hq, hm⟩
    subst hq
    refine ⟨by unfold batch_convert_to_webp_quality; omega,
      batch_convert_to_webp_method m, hm, ?_⟩
    unfold batch_convert_to_webp_method
    omega

/-- C5 witness: at `quality=150, method=9` the clamps land in range, the
direct `convert_to_webp` path hands the encoder the raw 150/9, and the
batch path hands it the clamped 100/6. -/
theorem quality_method_clamping_witness :
    ((1 ≤ save_image_quality 150 ∧ save_image_quality 150 ≤ 100) ∧
      ((150 : ℤ) = 150 ∧ (some (9 : ℤ)) = some 9)) ∧
    ((1 ≤ (100 : ℤ) ∧ (100 : ℤ) ≤ 100) ∧
      ∃ m₀, (some (6 : ℤ)) = some m₀ ∧ 0 ≤ m₀ ∧ m₀ ≤ 6) := by
  refine ⟨⟨?_, ?_⟩, ?_⟩
  · exact (quality_method_clamping envC1 0 1 none true 150 9 150 100
      (some 9) (some 6) 10).1
  · exact (quality_method_clamping envC1 0 1 none true 150 9 150 100
      (some 9) (some 6) 10).2.1 (by decide)
  · exact (quality_method_clamping envC1 0 1 none true 150 9 150 100
      (some 9) (some 6) 10).2.2 (by decide)

/-- C4 counterexample: `convert` called with an explicitly supplied EMPTY
bucket list on a perfectly good image raises nothing — the Python guard
`if buckets and ...` treats `[]` as falsy, so bucket selection is silently
skipped, the image is decoded (image work is performed) and the conversion
completes with `success=True`.  No validation error is raised before any
image work. -/
theorem convert_empty_buckets_proceeds :
    (convert envC1 0 none ResizeMode.proportional (some []) 85).1.success = true ∧
    FxEvent.decode 0 ∈ (convert envC1 0 none ResizeMode.proportional (some []) 85).2 := by
  decide

/-- C4 (amended): passing an empty bucket list directly to
`find_closest_bucket` does raise a validation error; `convert`, however,
treats an empty `buckets` list exactly like `buckets=None` (Python
truthiness) and proceeds with the whole conversion without raising. -/
theorem empty_bucket_list_behavior :
    (∀ w h : ℤ,
      find_closest_bucket w h [] = Except.error ("bucket list must not be empty")) ∧
    (∀ (env : Env) (p : ℕ) (r : Option (ℤ × ℤ)) (mo : ResizeMode) (q : ℤ),
      convert env p r mo (some []) q = convert env p r mo none q) := by
  constructor
  · intro w h
    rfl
  · intro env p r mo q
    unfold convert convert_run
    cases hf : env.files p with
    | none => rfl
    | some f =>
        cases hi : f.image with
        | none => rfl
        | some wh =>
            cases r with
            | none => rfl
            | some rs => rfl

/-- C6: `batch_convert` produces exactly one result per input path: the
result list is the per-item map of `convert` over the inputs (so each
item's outcome is a function of that item alone and a failure of one item
cannot cancel or affect any other), its length is the number N of inputs,
the number of `success=false` entries equals the number M of inputs whose
individual conversion fails, and the `success=true` entries account for
exactly the remaining N − M. -/
theorem batch_convert_result_counts (env : Env) (paths : List ℕ)
    (dir : Option ℕ) (r : Option (ℤ × ℤ)) (mo : ResizeMode)
    (bks : Option (List (ℤ × ℤ))) (q : ℤ) :
    (batch_convert env paths dir r mo bks q).1 =
      paths.map (fun p => (convert env p r mo bks q).1) ∧
    (batch_convert env paths dir r mo bks q).1.length = paths.length ∧
    (batch_convert env paths dir r mo bks q).1.countP (fun x => !x.success) =
      paths.countP (fun p => !(convert env p r mo bks q).1.success) ∧
    (batch_convert env paths dir r mo bks q).1.countP (fun x => x.success) +
      paths.countP (fun p => !(convert env p r mo bks q).1.success) =
      paths.length := by
  have hmap : (batch_convert env paths dir r mo bks q).1 =
      paths.map (fun p => (convert env p r mo bks q).1) := by
    cases paths with
    | nil => rfl
    | cons p0 rest => simp [batch_convert]
  refine ⟨hmap, ?_, ?_, ?_⟩
  · rw [hmap, List.length_map]
  · rw [hmap, List.countP_map]
    rfl
  · rw [hmap, List.countP_map]
    have h2 := countP_success_add_countP_failure
      (paths.map (fun p => (convert env p r mo bks q).1))
    rw [List.countP_map, List.countP_map, List.length_map] at h2
    exact h2

/-- PROPORTIONAL resize: both output dimensions are the floor of the
common scale factor `min(tw/w, th/h)` applied to the source dimensions
(`int()` truncation = floor, since everything is nonnegative). -/
lemma resize_image_proportional_outSize (w h tw th : ℤ) (hw : 0 < w)
    (hh : 0 < h) (htw : 0 ≤ tw) (hth : 0 ≤ th) :
    (resize_image w h tw th ResizeMode.proportional).outSize =
      (⌊(w : ℚ) * min ((tw : ℚ) / (w : ℚ)) ((th : ℚ) / (h : ℚ))⌋,
       ⌊(h : ℚ) * min ((tw : ℚ) / (w : ℚ)) ((th : ℚ) / (h : ℚ))⌋) := by
  have hw' : (0 : ℚ) < (w : ℚ) := by exact_mod_cast hw
  have hh' : (0 : ℚ) < (h : ℚ) := by exact_mod_cast hh
  have htw' : (0 : ℚ) ≤ (tw : ℚ) := by exact_mod_cast htw
  have hth' : (0 : ℚ) ≤ (th : ℚ) := by exact_mod_cast hth
  have hs : (0 : ℚ) ≤ min ((tw : ℚ) / (w : ℚ)) ((th : ℚ) / (h : ℚ)) :=
    le_min (by positivity) (by positivity)
  simp only [resize_image]
  rw [pyInt_of_nonneg (mul_nonneg (le_of_lt hw') hs),
      pyInt_of_nonneg (mul_nonneg (le_of_lt hh') hs)]

/-- C2 counterexample: for a 8×7 source and a 2×2 target in PROPORTIONAL
mode the code computes scale 1/4 and height `int(7 * 1/4) = int(1.75) = 1`
(the Python float computation is exact here), whereas the claim's
`round(7 * 1/4) = round(1.75) = 2` — so the produced height 1 differs
from the claimed rounded height 2: the code truncates, it does not
round. -/
theorem resize_proportional_truncates_at_8x7 :
    (resize_image 8 7 2 2 ResizeMode.proportional).outSize = (2, 1) ∧
    round ((8 : ℚ) * min ((2 : ℚ) / 8) ((2 : ℚ) / 7)) = 2 ∧
    round ((7 : ℚ) * min ((2 : ℚ) / 8) ((2 : ℚ) / 7)) = 2 ∧
    (1 : ℤ) ≠ 2 := by
  refine ⟨?_, ?_, ?_, by decide⟩
  · rw [resize_image_proportional_outSize 8 7 2 2 (by decide) (by decide)
      (by decide) (by decide)]
    have hmin : min (((2 : ℤ) : ℚ) / ((8 : ℤ) : ℚ)) (((2 : ℤ) : ℚ) / ((7 : ℤ) : ℚ)) =
        1 / 4 := by
      rw [min_eq_left (by norm_num)]
      norm_num
    rw [hmin]
    simp only [Prod.mk.injEq]
    refine ⟨?_, ?_⟩
    · rw [show ((8 : ℤ) : ℚ) * (1 / 4) = 2 by norm_num]
      exact floor_eval (by norm_num) (by norm_num)
    · rw [show ((7 : ℤ) : ℚ) * (1 / 4) = 7 / 4 by norm_num]
      exact floor_eval (by norm_num) (by norm_num)
  · rw [show min ((2 : ℚ) / 8) ((2 : ℚ) / 7) = 1 / 4 from by
        rw [min_eq_left (by norm_num)]; norm_num,
      show (8 : ℚ) * (1 / 4) = 2 by norm_num, round_eq]
    exact floor_eval (by norm_num) (by norm_num)
  · rw [show min ((2 : ℚ) / 8) ((2 : ℚ) / 7) = 1 / 4 from by
        rw [min_eq_left (by norm_num)]; norm_num,
      show (7 : ℚ) * (1 / 4) = 7 / 4 by norm_num, round_eq]
    exact floor_eval (by norm_num) (by norm_num)

/-- C2 (amended): for every source size (w,h) and target (tw,th),
PROPORTIONAL mode uses the scale factor min(tw/w, th/h), and the output
dimensions are the TRUNCATION `int(w*scale) × int(h*scale)` (= floor on
these nonnegative values), not `round(...)`. -/
theorem resize_proportional_scale_and_dims (w h tw th : ℤ) (hw : 0 < w)
    (hh : 0 < h) (htw : 0 ≤ tw) (hth : 0 ≤ th) :
    (resize_image w h tw th ResizeMode.proportional).outSize =
      (⌊(w : ℚ) * min ((tw : ℚ) / (w : ℚ)) ((th : ℚ) / (h : ℚ))⌋,
       ⌊(h : ℚ) * min ((tw : ℚ) / (w : ℚ)) ((th : ℚ) / (h : ℚ))⌋) :=
  resize_image_proportional_outSize w h tw th hw hh htw hth

/-- C2 witness: at the concrete source 8×7 with a 2×2 target, the claim's
hypotheses hold and the amended formula applies. -/
theorem resize_proportional_scale_and_dims_witness :
    (resize_image 8 7 2 2 ResizeMode.proportional).outSize =
      (⌊((8 : ℤ) : ℚ) * min (((2 : ℤ) : ℚ) / ((8 : ℤ) : ℚ)) (((2 : ℤ) : ℚ) / ((7 : ℤ) : ℚ))⌋,
       ⌊((7 : ℤ) : ℚ) * min (((2 : ℤ) : ℚ) / ((8 : ℤ) : ℚ)) (((2 : ℤ) : ℚ) / ((7 : ℤ) : ℚ))⌋) :=
  resize_proportional_scale_and_dims 8 7 2 2 (by decide) (by decide)
    (by decide) (by decide)

/-- C7: for every source and target, CROP and PADDING produce exactly the
target size (tw, th) — CROP because the crop box is
`(left, top, left+tw, top+th)`, PADDING because the canvas is
`Image.new(..., (tw, th))`; the crop offsets are `(scaled − target) // 2`
= floor((scaled−target)/2) per axis on the scaled size
`(int(w·max(tw/w, th/h)), int(h·max(tw/w, th/h)))`, the paste offsets are
`(target − scaled) // 2` = floor((target−scaled)/2); and PROPORTIONAL
scales both axes by the one common factor min(tw/w, th/h) (aspect ratio
preserved within the truncation of each axis). -/
theorem resize_crop_padding_exact (w h tw th : ℤ) (hw : 0 < w) (hh : 0 < h)
    (htw : 0 ≤ tw) (hth : 0 ≤ th) :
    ((resize_image w h tw th ResizeMode.crop).outSize = (tw, th) ∧
     (resize_image w h tw th ResizeMode.padding).outSize = (tw, th)) ∧
    ((resize_image w h tw th ResizeMode.crop).newSize =
       (⌊(w : ℚ) * max ((tw : ℚ) / (w : ℚ)) ((th : ℚ) / (h : ℚ))⌋,
        ⌊(h : ℚ) * max ((tw : ℚ) / (w : ℚ)) ((th : ℚ) / (h : ℚ))⌋) ∧
     (resize_image w h tw th ResizeMode.crop).offset =
       (⌊(((resize_image w h tw th ResizeMode.crop).newSize.1 - tw : ℤ) : ℚ) / 2⌋,
        ⌊(((resize_image w h tw th ResizeMode.crop).newSize.2 - th : ℤ) : ℚ) / 2⌋) ∧
     (resize_image w h tw th ResizeMode.padding).offset =
       (⌊((tw - (resize_image w h tw th ResizeMode.padding).newSize.1 : ℤ) : ℚ) / 2⌋,
        ⌊((th - (resize_image w h tw th ResizeMode.padding).newSize.2 : ℤ) : ℚ) / 2⌋)) ∧
    (resize_image w h tw th ResizeMode.proportional).outSize =
      (⌊(w : ℚ) * min ((tw : ℚ) / (w : ℚ)) ((th : ℚ) / (h : ℚ))⌋,
       ⌊(h : ℚ) * min ((tw : ℚ) / (w : ℚ)) ((th : ℚ) / (h : ℚ))⌋) := by
  have hw' : (0 : ℚ) < (w : ℚ) := by exact_mod_cast hw
  have hh' : (0 : ℚ) < (h : ℚ) := by exact_mod_cast hh
  have htw' : (0 : ℚ) ≤ (tw : ℚ) := by exact_mod_cast htw
  have hth' : (0 : ℚ) ≤ (th : ℚ) := by exact_mod_cast hth
  have hmaxn : (0 : ℚ) ≤ max ((tw : ℚ) / (w : ℚ)) ((th : ℚ) / (h : ℚ)) :=
    le_max_of_le_left (by positivity)
  refine ⟨⟨?_, ?_⟩, ⟨?_, ?_, ?_⟩, ?_⟩
  · simp only [resize_image, Prod.mk.injEq]
    constructor <;> ring
  · rfl
  · simp only [resize_image]
    rw [pyInt_of_nonneg (mul_nonneg (le_of_lt hw') hmaxn),
        pyInt_of_nonneg (mul_nonneg (le_of_lt hh') hmaxn)]
  · simp only [resize_image]
    rw [fdiv_two_eq_floor, fdiv_two_eq_floor]
  · simp only [resize_image]
    rw [fdiv_two_eq_floor, fdiv_two_eq_floor]
  · exact resize_image_proportional_outSize w h tw th hw hh htw hth

/-- C7 witness: a 1920×1080 source cropped or padded to a 500×500 target
comes out exactly 500×500. -/
theorem resize_crop_padding_exact_witness :
    (resize_image 1920 1080 500 500 ResizeMode.crop).outSize = (500, 500) ∧
    (resize_image 1920 1080 500 500 ResizeMode.padding).outSize = (500, 500) :=
  ⟨(resize_crop_padding_exact 1920 1080 500 500 (by decide) (by decide)
      (by decide) (by decide)).1.1,
   (resize_crop_padding_exact 1920 1080 500 500 (by decide) (by decide)
      (by decide) (by decide)).1.2⟩

/-- The arithmetic core of the short-edge resize, for a short source edge
`a`, a long source edge `b` and a target `s`: with `n = ⌊b·s/a⌋` the
intermediate target computed by `resize_by_short_edge`, the PROPORTIONAL
pass scales by `n/b` (the smaller ratio), mapping the long edge exactly to
`n` and the short edge to `s` when `a ∣ b·s` and to `s − 1` otherwise;
moreover `s ≤ n`. -/
lemma short_edge_core (a b s : ℤ) (ha : 0 < a) (hab : a ≤ b) (hs : 0 < s) :
    ⌊(b : ℚ) * min ((s : ℚ) / (a : ℚ))
        (((⌊(b : ℚ) * (s : ℚ) / (a : ℚ)⌋ : ℤ) : ℚ) / (b : ℚ))⌋ =
      ⌊(b : ℚ) * (s : ℚ) / (a : ℚ)⌋ ∧
    ⌊(a : ℚ) * min ((s : ℚ) / (a : ℚ))
        (((⌊(b : ℚ) * (s : ℚ) / (a : ℚ)⌋ : ℤ) : ℚ) / (b : ℚ))⌋ =
      (if a ∣ b * s then s else s - 1) ∧
    s ≤ ⌊(b : ℚ) * (s : ℚ) / (a : ℚ)⌋ := by
  have hb : 0 < b := lt_of_lt_of_le ha hab
  have ha' : (0 : ℚ) < (a : ℚ) := by exact_mod_cast ha
  have hb' : (0 : ℚ) < (b : ℚ) := by exact_mod_cast hb
  have hs' : (0 : ℚ) < (s : ℚ) := by exact_mod_cast hs
  have hab' : (a : ℚ) ≤ (b : ℚ) := by exact_mod_cast hab
  set n : ℤ := ⌊(b : ℚ) * (s : ℚ) / (a : ℚ)⌋ with hn
  have hfl : (n : ℚ) * (a : ℚ) ≤ (b : ℚ) * (s : ℚ) :=
    (le_div_iff₀ ha').mp (Int.floor_le _)
  have hfu : (b : ℚ) * (s : ℚ) < ((n : ℚ) + 1) * (a : ℚ) :=
    (div_lt_iff₀ ha').mp (Int.lt_floor_add_one _)
  have hsn : s ≤ n := by
    have h1 : (s : ℚ) * (a : ℚ) ≤ (b : ℚ) * (s : ℚ) := by
      rw [mul_comm (b : ℚ)]
      exact mul_le_mul_of_nonneg_left hab' (le_of_lt hs')
    have h2 : (s : ℚ) * (a : ℚ) < ((n : ℚ) + 1) * (a : ℚ) := lt_of_le_of_lt h1 hfu
    have h3 : (s : ℚ) < (n : ℚ) + 1 := lt_of_mul_lt_mul_right h2 (le_of_lt ha')
    have h4 : (s : ℚ) < ((n + 1 : ℤ) : ℚ) := by push_cast; exact h3
    exact Int.lt_add_one_iff.mp (by exact_mod_cast h4)
  have hn0 : 0 ≤ n := le_trans (le_of_lt hs) hsn
  have hn0' : (0 : ℚ) ≤ (n : ℚ) := by exact_mod_cast hn0
  have hminr : min ((s : ℚ) / (a : ℚ)) ((n : ℚ) / (b : ℚ)) = (n : ℚ) / (b : ℚ) := by
    apply min_eq_right
    rw [div_le_div_iff₀ hb' ha', mul_comm (s : ℚ) (b : ℚ)]
    exact hfl
  refine ⟨?_, ?_, hsn⟩
  · rw [hminr, mul_comm ((b : ℚ)), div_mul_cancel₀ _ (ne_of_gt hb'), Int.floor_intCast]
  · rw [hminr, ← mul_div_assoc]
    by_cases hd : a ∣ b * s
    · rw [if_pos hd]
      obtain ⟨k, hk⟩ := hd
      have hfl' : n * a ≤ b * s := by exact_mod_cast hfl
      have hfu' : b * s < (n + 1) * a := by exact_mod_cast hfu
      have hkn : k = n := by
        rw [hk] at hfl' hfu'
        have h5 : n * a ≤ k * a := by linarith [hfl']
        have h6 : k * a < (n + 1) * a := by linarith [hfu']
        have h7 : n ≤ k := le_of_mul_le_mul_right h5 ha
        have h8 : k < n + 1 := lt_of_mul_lt_mul_right h6 (le_of_lt ha)
        omega
      have han : (a : ℚ) * (n : ℚ) = (b : ℚ) * (s : ℚ) := by
        have : a * n = b * s := by rw [hk, hkn]
        exact_mod_cast this
      rw [han, mul_div_cancel_left₀ ((s : ℚ)) (ne_of_gt hb'), Int.floor_intCast]
    · rw [if_neg hd]
      have hfl' : n * a ≤ b * s := by exact_mod_cast hfl
      have hne : n * a ≠ b * s := by
        intro he
        exact hd ⟨n, by rw [← he]; ring⟩
      have hlt : n * a < b * s := lt_of_le_of_ne hfl' hne
      have hfu' : b * s < (n + 1) * a := by exact_mod_cast hfu
      apply floor_eval
      · have h9 : (s - 1) * b ≤ a * n := by nlinarith [hfu', hab]
        have h9' : ((s : ℚ) - 1) * (b : ℚ) ≤ (a : ℚ) * (n : ℚ) := by exact_mod_cast h9
        rw [le_div_iff₀ hb']
        push_cast
        linarith [h9']
      · have h10 : a * n < s * b := by nlinarith [hlt]
        have h10' : (a : ℚ) * (n : ℚ) < (s : ℚ) * (b : ℚ) := by exact_mod_cast h10
        rw [div_lt_iff₀ hb']
        push_cast
        linarith [h10']

/-- The shorter dimension produced by `resize_by_short_edge`: when the
skip does not apply, it is `s` exactly when the short source edge divides
`(long source edge)·s`, and `s − 1` otherwise. -/
lemma resize_by_short_edge_min_dim_aux (w h s : ℤ) (osh : Bool)
    (hw : 0 < w) (hh : 0 < h) (hs : 0 < s) :
    (osh = true ∧ min w h ≤ s → resize_by_short_edge w h s osh = (w, h)) ∧
    (¬(osh = true ∧ min w h ≤ s) →
      min (resize_by_short_edge w h s osh).1 (resize_by_short_edge w h s osh).2 =
        if min w h ∣ max w h * s then s else s - 1) := by
  constructor
  · intro hskip
    simp only [resize_by_short_edge]
    rw [if_pos hskip]
  · intro hns
    simp only [resize_by_short_edge]
    rw [if_neg hns]
    by_cases hwh : w ≤ h
    · rw [if_pos hwh]
      have hpy : pyInt ((h : ℚ) * (s : ℚ) / (w : ℚ)) = ⌊(h : ℚ) * (s : ℚ) / (w : ℚ)⌋ :=
        pyInt_of_nonneg (by positivity)
      dsimp only
      rw [hpy]
      set n : ℤ := ⌊(h : ℚ) * (s : ℚ) / (w : ℚ)⌋ with hn
      have hcore := short_edge_core w h s hw hwh hs
      rw [← hn] at hcore
      obtain ⟨hc1, hc2, hc3⟩ := hcore
      have hn0 : 0 ≤ n := by omega
      rw [resize_image_proportional_outSize w h s n hw hh (le_of_lt hs) hn0]
      dsimp only
      rw [hc1, hc2]
      rw [min_eq_left hwh, max_eq_right hwh]
      split_ifs with hd
      · exact min_eq_left (by omega)
      · exact min_eq_left (by omega)
    · rw [if_neg hwh]
      have hhw : h ≤ w := le_of_lt (lt_of_not_le hwh)
      have hpy : pyInt ((w : ℚ) * (s : ℚ) / (h : ℚ)) = ⌊(w : ℚ) * (s : ℚ) / (h : ℚ)⌋ :=
        pyInt_of_nonneg (by positivity)
      dsimp only
      rw [hpy]
      set n : ℤ := ⌊(w : ℚ) * (s : ℚ) / (h : ℚ)⌋ with hn
      have hcore := short_edge_core h w s hh hhw hs
      rw [← hn] at hcore
      obtain ⟨hc1, hc2, hc3⟩ := hcore
      have hn0 : 0 ≤ n := by omega
      rw [resize_image_proportional_outSize w h n s hw hh hn0 (le_of_lt hs)]
      dsimp only
      rw [min_comm ((n : ℚ) / (w : ℚ)) ((s : ℚ) / (h : ℚ)), hc1, hc2]
      rw [min_eq_right hhw, max_eq_left hhw]
      split_ifs with hd
      · exact min_eq_right (by omega)
      · exact min_eq_right (by omega)

/-- C3 counterexample: a 3×5 image short-edge-resized to 2 (shrink case,
the skip does not apply since the short edge 3 exceeds 2) produces a
shorter output dimension of 1, not the claimed exact 2: the intermediate
target is (2, int(5·2/3)) = (2, 3), and the PROPORTIONAL pass re-truncates
with scale 3/5, giving int(3·3/5) = int(1.8) = 1 (the Python float
computation is exact at this input). -/
theorem resize_by_short_edge_misses_target :
    ¬(true = true ∧ min (3 : ℤ) 5 ≤ 2) ∧
    min (resize_by_short_edge 3 5 2 true).1 (resize_by_short_edge 3 5 2 true).2 = 1 ∧
    (1 : ℤ) ≠ 2 := by
  refine ⟨by decide, ?_, by decide⟩
  have h := (resize_by_short_edge_min_dim_aux 3 5 2 true (by decide) (by decide)
    (by decide)).2 (by decide)
  rw [h]
  norm_num

/-- C3 (amended): `resize_by_short_edge` skips exactly when `only_shrink`
is set and the short edge is already ≤ size, returning the image
unchanged; otherwise the shorter output dimension equals `size` when the
short source edge divides (long source edge)·size, and `size − 1`
otherwise — one less than the claimed exact target whenever the division
truncates. -/
theorem resize_by_short_edge_short_dim (w h s : ℤ) (osh : Bool)
    (hw : 0 < w) (hh : 0 < h) (hs : 0 < s) :
    (osh = true ∧ min w h ≤ s → resize_by_short_edge w h s osh = (w, h)) ∧
    (¬(osh = true ∧ min w h ≤ s) →
      min (resize_by_short_edge w h s osh).1 (resize_by_short_edge w h s osh).2 =
        if min w h ∣ max w h * s then s else s - 1) :=
  resize_by_short_edge_min_dim_aux w h s osh hw hh hs

/-- C3 witness: a 4×6 image resized to short edge 2 hits the divisible
case (4 ∣ 12), so the shorter output dimension is exactly 2; and a 10×8
image with `only_shrink` and target 9 is skipped unchanged. -/
theorem resize_by_short_edge_short_dim_witness :
    min (resize_by_short_edge 4 6 2 true).1 (resize_by_short_edge 4 6 2 true).2 =
      (if min (4 : ℤ) 6 ∣ max (4 : ℤ) 6 * 2 then 2 else 2 - 1) ∧
    resize_by_short_edge 10 8 9 true = (10, 8) :=
  ⟨(resize_by_short_edge_short_dim 4 6 2 true (by decide) (by decide)
      (by decide)).2 (by decide),
   (resize_by_short_edge_short_dim 10 8 9 true (by decide) (by decide)
      (by decide)).1 (by decide)⟩

/-- The loop of `find_closest_bucket` returns the first element of
`best :: xs` attaining the minimal aspect-ratio difference: the input
splits as `l₁ ++ result :: l₂` with every element of `l₁` strictly worse
and every element at least as bad as the result (strict `<` in the loop
keeps the incumbent on ties). -/
lemma find_closest_bucket_go_spec (aspect : ℚ) (xs : List (ℤ × ℤ)) :
    ∀ best : ℤ × ℤ,
      ∃ l₁ l₂, best :: xs = l₁ ++ (find_closest_bucket_go aspect best xs) :: l₂ ∧
        (∀ b ∈ l₁, bucket_ratio_diff aspect (find_closest_bucket_go aspect best xs) <
          bucket_ratio_diff aspect b) ∧
        (∀ b ∈ best :: xs, bucket_ratio_diff aspect (find_closest_bucket_go aspect best xs) ≤
          bucket_ratio_diff aspect b) := by
  induction xs with
  | nil =>
      intro best
      refine ⟨[], [], rfl, by simp, ?_⟩
      intro b hb
      simp only [List.mem_singleton] at hb
      subst hb
      simp [find_closest_bucket_go]
  | cons c rest ih =>
      intro best
      simp only [find_closest_bucket_go]
      by_cases hlt : bucket_ratio_diff aspect c < bucket_ratio_diff aspect best
      · rw [if_pos hlt]
        obtain ⟨l₁, l₂, hdec, hstrict, hmin⟩ := ih c
        have hrc : bucket_ratio_diff aspect (find_closest_bucket_go aspect c rest) ≤
            bucket_ratio_diff aspect c :=
          hmin c (List.mem_cons_self c rest)
        refine ⟨best :: l₁, l₂, ?_, ?_, ?_⟩
        · rw [List.cons_append, ← hdec]
        · intro b hb
          rcases List.mem_cons.mp hb with hb | hb
          · subst hb
            exact lt_of_le_of_lt hrc hlt
          · exact hstrict b hb
        · intro b hb
          rcases List.mem_cons.mp hb with hb | hb
          · subst hb
            exact le_of_lt (lt_of_le_of_lt hrc hlt)
          · exact hmin b hb
      · rw [if_neg hlt]
        have hcb : bucket_ratio_diff aspect best ≤ bucket_ratio_diff aspect c :=
          not_lt.mp hlt
        obtain ⟨l₁, l₂, hdec, hstrict, hmin⟩ := ih best
        have hrb : bucket_ratio_diff aspect (find_closest_bucket_go aspect best rest) ≤
            bucket_ratio_diff aspect best :=
          hmin best (List.mem_cons_self best rest)
        cases l₁ with
        | nil =>
            simp only [List.nil_append] at hdec
            have hr : find_closest_bucket_go aspect best rest = best :=
              (List.head_eq_of_cons_eq hdec).symm
            refine ⟨[], c :: rest, ?_, by simp, ?_⟩
            · simp only [List.nil_append, hr]
            · intro b hb
              rcases List.mem_cons.mp hb with hb | hb
              · subst hb
                exact hmin _ (List.mem_cons_self _ _)
              · rcases List.mem_cons.mp hb with hb | hb
                · subst hb
                  exact le_trans hrb hcb
                · exact hmin b (List.mem_cons_of_mem best hb)
        | cons p t =>
            have hp : p = best := by
              have := List.head_eq_of_cons_eq hdec
              exact this.symm
            subst hp
            have hrest : rest = t ++ (find_closest_bucket_go aspect p rest) :: l₂ :=
              List.tail_eq_of_cons_eq hdec
            have hrlt : bucket_ratio_diff aspect (find_closest_bucket_go aspect p rest) <
                bucket_ratio_diff aspect p :=
              hstrict p (List.mem_cons_self p t)
            refine ⟨p :: c :: t, l₂, ?_, ?_, ?_⟩
            · rw [List.cons_append, List.cons_append, ← hrest]
            · intro b hb
              rcases List.mem_cons.mp hb with hb | hb
              · subst hb
                exact hrlt
              · rcases List.mem_cons.mp hb with hb | hb
                · subst hb
                  exact lt_of_lt_of_le hrlt hcb
                · exact hstrict b (List.mem_cons_of_mem p hb)
            · intro b hb
              rcases List.mem_cons.mp hb with hb | hb
              · subst hb
                exact hmin _ (List.mem_cons_self _ _)
              · rcases List.mem_cons.mp hb with hb | hb
                · subst hb
                  exact le_trans hrb hcb
                · exact hmin b (List.mem_cons_of_mem p hb)

/-- C8: on every image size and non-empty bucket list,
`find_closest_bucket` returns the bucket minimizing the absolute
aspect-ratio difference |w/h − bw/bh|, ties resolved in favor of the
bucket occurring first in the list (the list splits as `l₁ ++ r :: l₂`
with every bucket before `r` strictly worse); and concretely, for buckets
[(4,3), (16,9)] and a 1920×1080 input (ratio exactly 16/9), the second
bucket (16,9) is chosen. -/
theorem find_closest_bucket_min_first (width height : ℤ)
    (buckets : List (ℤ × ℤ)) (hne : buckets ≠ []) (_hh : 0 < height)
    (_hpos : ∀ b ∈ buckets, 0 < b.2) :
    (∃ r l₁ l₂, find_closest_bucket width height buckets = Except.ok r ∧
      buckets = l₁ ++ r :: l₂ ∧
      (∀ b ∈ l₁, bucket_ratio_diff ((width : ℚ) / (height : ℚ)) r <
        bucket_ratio_diff ((width : ℚ) / (height : ℚ)) b) ∧
      (∀ b ∈ buckets, bucket_ratio_diff ((width : ℚ) / (height : ℚ)) r ≤
        bucket_ratio_diff ((width : ℚ) / (height : ℚ)) b)) ∧
    find_closest_bucket 1920 1080 [(4, 3), (16, 9)] = Except.ok (16, 9) := by
  constructor
  · cases buckets with
    | nil => exact absurd rfl hne
    | cons b0 rest =>
        obtain ⟨l₁, l₂, hdec, hstrict, hmin⟩ :=
          find_closest_bucket_go_spec ((width : ℚ) / (height : ℚ)) rest b0
        exact ⟨_, l₁, l₂, rfl, hdec, hstrict, hmin⟩
  · have d1 : bucket_ratio_diff (((1920 : ℤ) : ℚ) / ((1080 : ℤ) : ℚ))
        ((16 : ℤ), (9 : ℤ)) = 0 := by
      simp only [bucket_ratio_diff]
      rw [show (((1920 : ℤ) : ℚ) / ((1080 : ℤ) : ℚ)) -
          (((16, 9) : ℤ × ℤ).1 : ℚ) / (((16, 9) : ℤ × ℤ).2 : ℚ) = 0 by norm_num]
      exact abs_zero
    have d2 : bucket_ratio_diff (((1920 : ℤ) : ℚ) / ((1080 : ℤ) : ℚ))
        ((4 : ℤ), (3 : ℤ)) = 4 / 9 := by
      simp only [bucket_ratio_diff]
      rw [show (((1920 : ℤ) : ℚ) / ((1080 : ℤ) : ℚ)) -
          (((4, 3) : ℤ × ℤ).1 : ℚ) / (((4, 3) : ℤ × ℤ).2 : ℚ) = 4 / 9 by norm_num]
      exact abs_of_nonneg (by norm_num)
    simp only [find_closest_bucket, find_closest_bucket_go]
    rw [if_pos (by rw [d1, d2]; norm_num)]

/-- C8 witness: the theorem instantiated at the 1920×1080 input with the
two-bucket list of the claim. -/
theorem find_closest_bucket_min_first_witness :
    (∃ r l₁ l₂, find_closest_bucket 1920 1080 [(4, 3), (16, 9)] = Except.ok r ∧
      [((4 : ℤ), (3 : ℤ)), (16, 9)] = l₁ ++ r :: l₂ ∧
      (∀ b ∈ l₁, bucket_ratio_diff (((1920 : ℤ) : ℚ) / ((1080 : ℤ) : ℚ)) r <
        bucket_ratio_diff (((1920 : ℤ) : ℚ) / ((1080 : ℤ) : ℚ)) b) ∧
      (∀ b ∈ [((4 : ℤ), (3 : ℤ)), (16, 9)],
        bucket_ratio_diff (((1920 : ℤ) : ℚ) / ((1080 : ℤ) : ℚ)) r ≤
        bucket_ratio_diff (((1920 : ℤ) : ℚ) / ((1080 : ℤ) : ℚ)) b)) ∧
    find_closest_bucket 1920 1080 [(4, 3), (16, 9)] = Except.ok (16, 9) :=
  find_closest_bucket_min_first 1920 1080 [(4, 3), (16, 9)] (by decide)
    (by decide) (by decide)
